import Mathlib

/-!
Verification of the robot-bundler repository: the kit-version codec
(src/kit_version.rs) and the bundle configuration schema (src/schema.rs).

The version parser in the source is the anchored regular expression

  ^(\d+)\.(\d+)\.(\d+)\.(\d+)(dev)?(?::([0-9a-f]{5,40})(?:@(\w+))?)?$

followed by u16/u8 range checks on the four numeric captures.  The regular
expression is embedded here as a deterministic maximal-munch scanner over
`List Char`; this is faithful because every repetition in the pattern is
followed by a delimiter outside its character class (a digit run is followed
by a dot, "dev", a colon or the end; the hex run by an at-sign or the end;
the word run by the end), so the backtracking engine and the maximal-munch
scanner accept exactly the same strings with the same capture contents.
The character classes are modelled over their ASCII subsets (the spec reads
them as decimal digits and letters/digits/underscore); machine integers u16
and u8 are modelled as `Nat` with the explicit bounds 65535 and 255 that the
source checks at parse time.
-/

namespace RobotBundler

/-- ASCII lowercase hexadecimal digit: the character class `[0-9a-f]` of the
commit capture. -/
def isHexLowerChar (c : Char) : Bool := c.isDigit || ('a' ≤ c && c ≤ 'f')

/-- Word character (letter, digit or underscore): the character class `\w`
of the branch capture, modelled over ASCII. -/
def isWordChar (c : Char) : Bool := c.isAlpha || c.isDigit || c == '_'

/-- Build metadata attached to a version: `struct BuildInfo` of the source. -/
structure BuildInfo where
  commit : List Char
  branch : Option (List Char)
deriving DecidableEq

/-- A parsed kit version: `struct KitVersion` of the source.  The numeric
fields are u16 (epoch) and u8 (major, minor, patch) in the source; they are
modelled as `Nat`, with the range checks appearing explicitly in the parser. -/
structure KitVersion where
  epoch : Nat
  major : Nat
  minor : Nat
  patch : Nat
  dev : Bool
  build_info : Option BuildInfo
deriving DecidableEq

/-- Decimal digit character: `'0'` shifted by the digit value. -/
def digitChar (d : Nat) : Char := Char.ofNat (48 + d)

/-- Fuel-driven core of decimal formatting of a natural number, most
significant digit first (the integer Display formatting Rust applies to the
u16/u8 fields). -/
def natDecCore : Nat → Nat → List Char → List Char
  | 0, _, acc => acc
  | fuel+1, n, acc =>
    if n < 10 then digitChar (n % 10) :: acc
    else natDecCore fuel (n / 10) (digitChar (n % 10) :: acc)

/-- Decimal representation of a natural number, without leading zeros
(and `"0"` for zero), as Rust formats unsigned integers. -/
def natDec (n : Nat) : List Char := natDecCore (n + 1) n []

/-- `impl fmt::Display for BuildInfo`: the commit, then `@branch` when a
branch is present. -/
def BuildInfo.displayL (b : BuildInfo) : List Char :=
  match b.branch with
  | none => b.commit
  | some br => b.commit ++ '@' :: br

/-- `impl fmt::Display for KitVersion`: the four-way match of the source on
the dev flag and the presence of build metadata. -/
def KitVersion.displayL (v : KitVersion) : List Char :=
  if v.dev then
    match v.build_info with
    | some bi =>
        natDec v.epoch ++ '.' :: natDec v.major ++ '.' :: natDec v.minor ++ '.' ::
          natDec v.patch ++ 'd' :: 'e' :: 'v' :: ':' :: bi.displayL
    | none =>
        natDec v.epoch ++ '.' :: natDec v.major ++ '.' :: natDec v.minor ++ '.' ::
          natDec v.patch ++ ['d', 'e', 'v']
  else
    match v.build_info with
    | some bi =>
        natDec v.epoch ++ '.' :: natDec v.major ++ '.' :: natDec v.minor ++ '.' ::
          natDec v.patch ++ ':' :: bi.displayL
    | none =>
        natDec v.epoch ++ '.' :: natDec v.major ++ '.' :: natDec v.minor ++ '.' ::
          natDec v.patch

/-- The formatted version as a `String`. -/
def KitVersion.toStr (v : KitVersion) : String := ⟨v.displayL⟩

/-- The seven capture groups of the version regular expression: the four
numeric components as digit strings, the dev indicator, and the optional
commit and branch captures. -/
structure Captures where
  epochS : List Char
  majorS : List Char
  minorS : List Char
  patchS : List Char
  devC : Bool
  commitC : Option (List Char)
  branchC : Option (List Char)
deriving DecidableEq

/-- Maximal run of characters satisfying `p`, and the remainder. -/
def splitWhile (p : Char → Bool) (s : List Char) : List Char × List Char :=
  (s.takeWhile p, s.dropWhile p)

/-- The optional literal group `(dev)?`: consume a literal `dev` when it is
next, reporting whether it was. -/
def matchDev : List Char → Bool × List Char
  | 'd' :: 'e' :: 'v' :: r => (true, r)
  | r => (false, r)

/-- The anchored version regular expression, as a deterministic scanner:
`none` when the whole string does not match, otherwise the captures. -/
def regexCaptures (s : List Char) : Option Captures :=
  match splitWhile Char.isDigit s with
  | ([], _) => none
  | (e, '.' :: r2) =>
    match splitWhile Char.isDigit r2 with
    | ([], _) => none
    | (ma, '.' :: r4) =>
      match splitWhile Char.isDigit r4 with
      | ([], _) => none
      | (mi, '.' :: r6) =>
        match splitWhile Char.isDigit r6 with
        | ([], _) => none
        | (pa, r7) =>
          match matchDev r7 with
          | (dev, []) => some ⟨e, ma, mi, pa, dev, none, none⟩
          | (dev, ':' :: r9) =>
            match splitWhile isHexLowerChar r9 with
            | (hx, r10) =>
              if hx.length < 5 ∨ 40 < hx.length then none
              else
                match r10 with
                | [] => some ⟨e, ma, mi, pa, dev, some hx, none⟩
                | '@' :: r11 =>
                  match splitWhile isWordChar r11 with
                  | ([], _) => none
                  | (w, []) => some ⟨e, ma, mi, pa, dev, some hx, some w⟩
                  | _ => none
                | _ => none
          | _ => none
      | _ => none
    | _ => none
  | _ => none

/-- Numeric value of a decimal digit character. -/
def decDigitVal (c : Char) : Nat := c.toNat - 48

/-- Value of a most-significant-first decimal digit string, as Rust's
`str::parse` computes it (the regex guarantees the string is nonempty and
all digits; overflow is checked against the integer width by the caller). -/
def decValC (l : List Char) : Nat := l.foldl (fun a c => 10 * a + decDigitVal c) 0

/-- The source's match on the pair of optional commit and branch captures:
a branch capture without a commit capture is discarded. -/
def buildInfoOfCaptures : Option (List Char) → Option (List Char) → Option BuildInfo
  | none, none => none
  | none, some _ => none
  | some c, none => some ⟨c, none⟩
  | some c, some b => some ⟨c, some b⟩

/-- `KitVersion::try_from(&str)`: run the regular expression, then check each
numeric capture against its integer width in source order (epoch, major,
minor, patch), returning the source's error strings. -/
def KitVersion.tryFromL (s : List Char) : Except String KitVersion :=
  match regexCaptures s with
  | none => .error "version was not in valid format."
  | some c =>
    if 65535 < decValC c.epochS then .error "Unable to parse version epoch"
    else if 255 < decValC c.majorS then .error "Unable to parse version major value"
    else if 255 < decValC c.minorS then .error "Unable to parse version minor value"
    else if 255 < decValC c.patchS then .error "Unable to parse version patch value"
    else .ok ⟨decValC c.epochS, decValC c.majorS, decValC c.minorS, decValC c.patchS,
              c.devC, buildInfoOfCaptures c.commitC c.branchC⟩

/-- `KitVersion::try_from` on a `String`. -/
def KitVersion.tryFrom (s : String) : Except String KitVersion :=
  KitVersion.tryFromL s.data

/-- Well-formed build metadata: exactly what the commit and branch captures of
a successful parse can contain — a 5-to-40 character lowercase-hex commit and,
when present, a nonempty word-character branch. -/
def WfBuild (bi : BuildInfo) : Prop :=
  (∀ c ∈ bi.commit, isHexLowerChar c = true) ∧
  5 ≤ bi.commit.length ∧ bi.commit.length ≤ 40 ∧
  ∀ br, bi.branch = some br → br ≠ [] ∧ ∀ c ∈ br, isWordChar c = true

/-- Well-formed version value: the numeric fields fit their declared machine
widths (u16 epoch, u8 major/minor/patch) and the build metadata, when present,
is well formed.  Every value produced by a successful parse satisfies this. -/
def Wf (v : KitVersion) : Prop :=
  v.epoch ≤ 65535 ∧ v.major ≤ 255 ∧ v.minor ≤ 255 ∧ v.patch ≤ 255 ∧
  ∀ bi, v.build_info = some bi → WfBuild bi

/-- Canonical format, worded as the spec words it: the four components joined
by dots, the literal `dev` appended exactly when the flag is set, and `:` plus
the commit (plus `@` plus the branch when a branch is present) appended
exactly when build metadata is present.  Stated separately from
`KitVersion.displayL` (the source's four-way match) so the two can be proved
equal. -/
def KitVersion.canonicalL (v : KitVersion) : List Char :=
  natDec v.epoch ++ '.' :: natDec v.major ++ '.' :: natDec v.minor ++ '.' :: natDec v.patch
    ++ (if v.dev then ['d', 'e', 'v'] else [])
    ++ (match v.build_info with
        | none => []
        | some bi =>
            ':' :: (bi.commit ++ (match bi.branch with
                                  | none => []
                                  | some br => '@' :: br)))

/-- The six tail shapes that can follow the four dot-separated numeric
components of a canonically formatted version: the optional literal `dev`,
then the optional `:commit` or `:commit@branch` build suffix (with the
commit and branch constrained as the grammar constrains them).  Used to
state the completeness half of the round-trip once for all six shapes. -/
inductive BuildTail : List Char → Bool → Option (List Char) → Option (List Char) → Prop
  | nodevNone : BuildTail [] false none none
  | devNone : BuildTail ['d', 'e', 'v'] true none none
  | nodevCommit (hx : List Char) (h1 : ∀ c ∈ hx, isHexLowerChar c = true)
      (h2 : 5 ≤ hx.length) (h3 : hx.length ≤ 40) :
      BuildTail (':' :: hx) false (some hx) none
  | devCommit (hx : List Char) (h1 : ∀ c ∈ hx, isHexLowerChar c = true)
      (h2 : 5 ≤ hx.length) (h3 : hx.length ≤ 40) :
      BuildTail ('d' :: 'e' :: 'v' :: ':' :: hx) true (some hx) none
  | nodevBranch (hx br : List Char) (h1 : ∀ c ∈ hx, isHexLowerChar c = true)
      (h2 : 5 ≤ hx.length) (h3 : hx.length ≤ 40)
      (h4 : br ≠ []) (h5 : ∀ c ∈ br, isWordChar c = true) :
      BuildTail (':' :: (hx ++ '@' :: br)) false (some hx) (some br)
  | devBranch (hx br : List Char) (h1 : ∀ c ∈ hx, isHexLowerChar c = true)
      (h2 : 5 ≤ hx.length) (h3 : hx.length ≤ 40)
      (h4 : br ≠ []) (h5 : ∀ c ∈ br, isWordChar c = true) :
      BuildTail ('d' :: 'e' :: 'v' :: ':' :: (hx ++ '@' :: br)) true (some hx) (some br)

/-! ## The configuration schema (src/schema.rs)

The struct definitions and their field sets are taken from the source.  The
serde/TOML machinery that decodes a document into them is an external
collaborator of the repository; it is modelled from the spec: a document is a
nesting of tables of string and boolean scalars, and decoding a struct from a
table enforces the closed field set (`deny_unknown_fields`), requires every
declared field, and type-checks each value, with a kit-version string that
fails to parse surfacing as a type error at that field. -/

/-- `struct BundleVersionSection`. -/
structure BundleVersionSection where
  version : String
deriving DecidableEq

/-- `struct KitInformationSection`. -/
structure KitInformationSection where
  name : String
  version : KitVersion
deriving DecidableEq

/-- `struct WiFiInformationSection`. -/
structure WiFiInformationSection where
  ssid : String
  psk : String
  enabled : Bool
  region : String
deriving DecidableEq

/-- `struct BundleInformationSchema`. -/
structure BundleInformationSchema where
  bundle : BundleVersionSection
  kit : KitInformationSection
  wifi : WiFiInformationSection
deriving DecidableEq

/-- Modelled from the spec: the generic structured document value of the
external TOML codec — nested tables of the scalar types the schema uses
(strings and booleans). -/
inductive Toml where
  | str (s : String)
  | boolVal (b : Bool)
  | table (kvs : List (String × Toml))

/-- Modelled from the spec: the schema-violation taxonomy of the loader — a
missing required field, a field outside the closed schema, or a value of the
wrong type (including a kit-version string that fails to parse). -/
inductive SchemaError where
  | missingField (path : String)
  | unknownField (path : String)
  | typeMismatch (path : String)
deriving DecidableEq

/-- First binding of a key in a table. -/
def lookupField (k : String) : List (String × Toml) → Option Toml
  | [] => none
  | (k', v) :: rest => if k' = k then some v else lookupField k rest

/-- Modelled from the spec: the `deny_unknown_fields` check — every key of the
table must be one of the allowed field names of the struct. -/
def checkKnown (path : String) (allowed : List String) (kvs : List (String × Toml)) :
    Except SchemaError Unit :=
  if kvs.all (fun kv => allowed.contains kv.1) then .ok ()
  else .error (.unknownField path)

/-- Require a field to be present. -/
def getField (path : String) (k : String) (kvs : List (String × Toml)) :
    Except SchemaError Toml :=
  match lookupField k kvs with
  | none => .error (.missingField path)
  | some v => .ok v

/-- Require a string node. -/
def asString (path : String) : Toml → Except SchemaError String
  | .str s => .ok s
  | _ => .error (.typeMismatch path)

/-- Require a boolean node. -/
def asBool (path : String) : Toml → Except SchemaError Bool
  | .boolVal b => .ok b
  | _ => .error (.typeMismatch path)

/-- Require a table node. -/
def asTable (path : String) : Toml → Except SchemaError (List (String × Toml))
  | .table kvs => .ok kvs
  | _ => .error (.typeMismatch path)

/-- The source's `Deserialize` for `KitVersion`: read a string node and run
`try_from`, surfacing a parse failure as an error at the field. -/
def asKitVersion (path : String) : Toml → Except SchemaError KitVersion
  | .str s =>
    match KitVersion.tryFrom s with
    | .ok v => .ok v
    | .error _ => .error (.typeMismatch path)
  | _ => .error (.typeMismatch path)

/-- Decode the `[bundle]` section. -/
def decodeBundleSection (kvs : List (String × Toml)) :
    Except SchemaError BundleVersionSection := do
  let _ ← checkKnown "bundle" ["version"] kvs
  let v ← getField "bundle.version" "version" kvs >>= asString "bundle.version"
  .ok ⟨v⟩

/-- Decode the `[kit]` section. -/
def decodeKitSection (kvs : List (String × Toml)) :
    Except SchemaError KitInformationSection := do
  let _ ← checkKnown "kit" ["name", "version"] kvs
  let n ← getField "kit.name" "name" kvs >>= asString "kit.name"
  let v ← getField "kit.version" "version" kvs >>= asKitVersion "kit.version"
  .ok ⟨n, v⟩

/-- Decode the `[wifi]` section. -/
def decodeWiFiSection (kvs : List (String × Toml)) :
    Except SchemaError WiFiInformationSection := do
  let _ ← checkKnown "wifi" ["ssid", "psk", "enabled", "region"] kvs
  let s ← getField "wifi.ssid" "ssid" kvs >>= asString "wifi.ssid"
  let p ← getField "wifi.psk" "psk" kvs >>= asString "wifi.psk"
  let e ← getField "wifi.enabled" "enabled" kvs >>= asBool "wifi.enabled"
  let r ← getField "wifi.region" "region" kvs >>= asString "wifi.region"
  .ok ⟨s, p, e, r⟩

/-- Modelled from the spec: decoding a whole configuration document — the
closed field set is enforced at every level, every deviation fails with no
partial result. -/
def decodeSchema (doc : Toml) : Except SchemaError BundleInformationSchema := do
  let kvs ← asTable "top" doc
  let _ ← checkKnown "top" ["bundle", "kit", "wifi"] kvs
  let b ← getField "bundle" "bundle" kvs >>= asTable "bundle" >>= decodeBundleSection
  let k ← getField "kit" "kit" kvs >>= asTable "kit" >>= decodeKitSection
  let w ← getField "wifi" "wifi" kvs >>= asTable "wifi" >>= decodeWiFiSection
  .ok ⟨b, k, w⟩

/-- Serde-derived serialization of the schema value, mirrored from the struct
field order, with `kit.version` re-encoded through its Display string. -/
def encodeSchema (x : BundleInformationSchema) : Toml :=
  .table [("bundle", .table [("version", .str x.bundle.version)]),
          ("kit", .table [("name", .str x.kit.name),
                          ("version", .str x.kit.version.toStr)]),
          ("wifi", .table [("ssid", .str x.wifi.ssid), ("psk", .str x.wifi.psk),
                           ("enabled", .boolVal x.wifi.enabled),
                           ("region", .str x.wifi.region)])]

/-- Whether a node is a table. -/
def Toml.isTable : Toml → Bool
  | .table _ => true
  | _ => false

/-- Within one table, every scalar entry must precede every sub-table entry
(the TOML text form cannot place a plain key under a section header). -/
def scalarsThenTables (kvs : List (String × Toml)) : Bool :=
  (kvs.dropWhile (fun kv => !kv.2.isTable)).all (fun kv => kv.2.isTable)

mutual
/-- Modelled from the spec: whether the external TOML text encoder accepts a
structured value — the document must be a table, and within each table the
scalar entries must precede the sub-table entries.  The `unwrap` in the
source's `to_string` panics exactly when this fails. -/
def tomlEncodeOk : Toml → Bool
  | .str _ => false
  | .boolVal _ => false
  | .table kvs => scalarsThenTables kvs && tomlEntriesOk kvs

/-- Every value of a key-value list is encodable in place (scalars, and
sub-tables checked recursively). -/
def tomlEntriesOk : List (String × Toml) → Bool
  | [] => true
  | (_, .table kvs) :: rest => scalarsThenTables kvs && tomlEntriesOk kvs && tomlEntriesOk rest
  | (_, _) :: rest => tomlEntriesOk rest
end

/-- `BundleInformationSchema::to_string`: serialize and render, panicking (the
source unwraps) when the renderer refuses the value.  Returns the accepted
structured value, `none` standing for the panic. -/
def BundleInformationSchema.toToml (x : BundleInformationSchema) : Option Toml :=
  if tomlEncodeOk (encodeSchema x) then some (encodeSchema x) else none

/-! ## Rejection predicates on documents

The shapes of document the spec requires the loader to reject, stated as
predicates on the structured document value. -/

/-- The closed top-level key set. -/
def topKeys : List String := ["bundle", "kit", "wifi"]

/-- Section `sec` of the document is a table containing a key outside its
allowed set. -/
def sectionHasUnknown (sec : String) (allowed : List String)
    (kvs : List (String × Toml)) : Prop :=
  ∃ skvs, lookupField sec kvs = some (.table skvs) ∧
    ∃ kv ∈ skvs, ¬ allowed.contains kv.1 = true

/-- The document carries a key outside the closed schema, at the top level or
inside one of the three sections. -/
def hasUnknownKey (doc : Toml) : Prop :=
  ∃ kvs, doc = .table kvs ∧
    ((∃ kv ∈ kvs, ¬ topKeys.contains kv.1 = true) ∨
     sectionHasUnknown "bundle" ["version"] kvs ∨
     sectionHasUnknown "kit" ["name", "version"] kvs ∨
     sectionHasUnknown "wifi" ["ssid", "psk", "enabled", "region"] kvs)

/-- Field `field` of section `sec` is absent: the section key is absent, or
the section is a table without the field. -/
def sectionMissing (sec field : String) (kvs : List (String × Toml)) : Prop :=
  lookupField sec kvs = none ∨
    ∃ skvs, lookupField sec kvs = some (.table skvs) ∧ lookupField field skvs = none

/-- One of the seven required fields of the schema is absent. -/
def missingRequiredField (doc : Toml) : Prop :=
  ∃ kvs, doc = .table kvs ∧
    (sectionMissing "bundle" "version" kvs ∨
     sectionMissing "kit" "name" kvs ∨
     sectionMissing "kit" "version" kvs ∨
     sectionMissing "wifi" "ssid" kvs ∨
     sectionMissing "wifi" "psk" kvs ∨
     sectionMissing "wifi" "enabled" kvs ∨
     sectionMissing "wifi" "region" kvs)

/-- `wifi.enabled` is given as a string instead of a boolean. -/
def enabledIsString (doc : Toml) : Prop :=
  ∃ kvs skvs s, doc = .table kvs ∧
    lookupField "wifi" kvs = some (.table skvs) ∧
    lookupField "enabled" skvs = some (.str s)

/-! ## Scanning helpers -/

theorem takeWhile_append_stop {p : Char → Bool} {a : List Char} {b : Char} {t : List Char}
    (ha : ∀ c ∈ a, p c = true) (hb : p b = false) :
    (a ++ b :: t).takeWhile p = a ∧ (a ++ b :: t).dropWhile p = b :: t := by
  induction a with
  | nil => simp [List.takeWhile_cons, List.dropWhile_cons, hb]
  | cons x xs ih =>
    have hx : p x = true := ha x (by simp)
    have ih' := ih (fun c hc => ha c (by simp [hc]))
    simp [List.takeWhile_cons, List.dropWhile_cons, hx, ih'.1, ih'.2]

theorem splitWhile_append_stop {p : Char → Bool} {a : List Char} {b : Char} {t : List Char}
    (ha : ∀ c ∈ a, p c = true) (hb : p b = false) :
    splitWhile p (a ++ b :: t) = (a, b :: t) := by
  have h := takeWhile_append_stop (t := t) ha hb
  simp [splitWhile, h.1, h.2]

theorem splitWhile_all {p : Char → Bool} {l : List Char} (h : ∀ c ∈ l, p c = true) :
    splitWhile p l = (l, []) := by
  simp [splitWhile, List.takeWhile_eq_self_iff.mpr h, List.dropWhile_eq_nil_iff.mpr h]

theorem splitWhile_not_head {p : Char → Bool} {b : Char} (t : List Char) (hb : p b = false) :
    splitWhile p (b :: t) = ([], b :: t) := by
  simpa using splitWhile_append_stop (a := []) (by simp) hb

theorem splitWhile_eq {p : Char → Bool} {s a b : List Char} (h : splitWhile p s = (a, b)) :
    s = a ++ b ∧ (∀ c ∈ a, p c = true) := by
  have h1 : s.takeWhile p = a := congrArg Prod.fst h
  have h2 : s.dropWhile p = b := congrArg Prod.snd h
  constructor
  · rw [← h1, ← h2, List.takeWhile_append_dropWhile]
  · intro c hc
    exact List.mem_takeWhile_imp (h1 ▸ hc)

theorem matchDev_eq {r : List Char} {d : Bool} {t : List Char} (h : matchDev r = (d, t)) :
    (d = true ∧ r = 'd' :: 'e' :: 'v' :: t) ∨ (d = false ∧ r = t) := by
  unfold matchDev at h
  split at h
  · cases h
    left
    simp
  · cases h
    right
    simp

/-! ## Decimal formatting of the numeric fields -/

theorem natDecCore_acc (fuel : Nat) : ∀ (n : Nat) (acc : List Char),
    natDecCore fuel n acc = natDecCore fuel n [] ++ acc := by
  induction fuel with
  | zero => intro n acc; simp [natDecCore]
  | succ f ih =>
    intro n acc
    by_cases h : n < 10
    · simp [natDecCore, h]
    · simp only [natDecCore, if_neg h]
      rw [ih (n / 10) (digitChar (n % 10) :: acc), ih (n / 10) [digitChar (n % 10)]]
      simp

theorem natDecCore_fuel {f : Nat} : ∀ (g n : Nat), n < f → n < g →
    natDecCore f n [] = natDecCore g n [] := by
  induction f with
  | zero => intro g n hf; omega
  | succ f ih =>
    intro g n hf hg
    cases g with
    | zero => omega
    | succ g =>
      by_cases h : n < 10
      · simp [natDecCore, h]
      · have hdiv : n / 10 < n := Nat.div_lt_self (by omega) (by omega)
        simp only [natDecCore, if_neg h]
        rw [natDecCore_acc f, natDecCore_acc g, ih g (n / 10) (by omega) (by omega)]

theorem natDec_small {n : Nat} (h : n < 10) : natDec n = [digitChar n] := by
  simp [natDec, natDecCore, h, Nat.mod_eq_of_lt h]

theorem natDec_step {n : Nat} (h : 10 ≤ n) :
    natDec n = natDec (n / 10) ++ [digitChar (n % 10)] := by
  have h1 : natDec n = natDecCore n (n / 10) [digitChar (n % 10)] := by
    simp [natDec, natDecCore, Nat.not_lt.2 h]
  have hdiv : n / 10 < n := Nat.div_lt_self (by omega) (by omega)
  rw [h1, natDecCore_acc, natDecCore_fuel (n / 10 + 1) (n / 10) hdiv (Nat.lt_succ_self _)]
  rfl

theorem digitChar_isDigit {d : Nat} (h : d < 10) : (digitChar d).isDigit = true := by
  interval_cases d <;> decide

theorem decDigitVal_digitChar {d : Nat} (h : d < 10) : decDigitVal (digitChar d) = d := by
  interval_cases d <;> decide

theorem natDec_all_digit (n : Nat) : ∀ c ∈ natDec n, c.isDigit = true := by
  induction n using Nat.strong_induction_on with
  | _ n ih =>
    by_cases h : n < 10
    · rw [natDec_small h]
      intro c hc
      rw [List.mem_singleton] at hc
      exact hc ▸ digitChar_isDigit h
    · rw [natDec_step (by omega)]
      intro c hc
      rcases List.mem_append.1 hc with hc | hc
      · exact ih (n / 10) (Nat.div_lt_self (by omega) (by omega)) c hc
      · rw [List.mem_singleton] at hc
        exact hc ▸ digitChar_isDigit (Nat.mod_lt _ (by omega))

theorem natDec_ne_nil (n : Nat) : natDec n ≠ [] := by
  by_cases h : n < 10
  · rw [natDec_small h]; simp
  · rw [natDec_step (by omega)]; simp

theorem decValC_concat (a : List Char) (c : Char) :
    decValC (a ++ [c]) = 10 * decValC a + decDigitVal c := by
  simp [decValC, List.foldl_append]

theorem splitWhile_cons_append_stop {p : Char → Bool} {x : Char} {a : List Char} {b : Char}
    {t : List Char} (ha : ∀ c ∈ x :: a, p c = true) (hb : p b = false) :
    splitWhile p (x :: (a ++ b :: t)) = (x :: a, b :: t) := by
  have h := splitWhile_append_stop (t := t) ha hb
  simpa using h

theorem matchDev_nil : matchDev [] = (false, []) := rfl

theorem matchDev_colon (t : List Char) : matchDev (':' :: t) = (false, ':' :: t) := rfl

theorem matchDev_dev (t : List Char) : matchDev ('d' :: 'e' :: 'v' :: t) = (true, t) := rfl

theorem decValC_natDec (n : Nat) : decValC (natDec n) = n := by
  induction n using Nat.strong_induction_on with
  | _ n ih =>
    by_cases h : n < 10
    · rw [natDec_small h]
      simp [decValC, decDigitVal_digitChar h]
    · rw [natDec_step (by omega), decValC_concat,
        ih (n / 10) (Nat.div_lt_self (by omega) (by omega)),
        decDigitVal_digitChar (Nat.mod_lt _ (by omega))]
      omega

/-! ## Parsing the canonical format: the completeness half of the round-trip -/

theorem regexCaptures_complete
    {eS maS miS paS : List Char} {dv : Bool} {cc bc : Option (List Char)}
    (tail : List Char)
    (hes : eS ≠ []) (hed : ∀ c ∈ eS, Char.isDigit c = true)
    (hmas : maS ≠ []) (hmad : ∀ c ∈ maS, Char.isDigit c = true)
    (hmis : miS ≠ []) (hmid : ∀ c ∈ miS, Char.isDigit c = true)
    (hpas : paS ≠ []) (hpad : ∀ c ∈ paS, Char.isDigit c = true)
    (hbuild : BuildTail tail dv cc bc) :
    regexCaptures (eS ++ '.' :: maS ++ '.' :: miS ++ '.' :: paS ++ tail) =
      some ⟨eS, maS, miS, paS, dv, cc, bc⟩ := by
  obtain ⟨d1, t1, rfl⟩ := List.exists_cons_of_ne_nil hes
  obtain ⟨d2, t2, rfl⟩ := List.exists_cons_of_ne_nil hmas
  obtain ⟨d3, t3, rfl⟩ := List.exists_cons_of_ne_nil hmis
  obtain ⟨d4, t4, rfl⟩ := List.exists_cons_of_ne_nil hpas
  have hdot : Char.isDigit '.' = false := by decide
  have hcolon : Char.isDigit ':' = false := by decide
  have hdee : Char.isDigit 'd' = false := by decide
  have hat : isHexLowerChar '@' = false := by decide
  cases hbuild with
  | nodevNone =>
    simp only [List.append_assoc, List.cons_append, List.append_nil, regexCaptures]
    simp only [splitWhile_cons_append_stop hed hdot, splitWhile_cons_append_stop hmad hdot,
      splitWhile_cons_append_stop hmid hdot, splitWhile_all hpad, matchDev_nil]
  | devNone =>
    simp only [List.append_assoc, List.cons_append, regexCaptures]
    simp only [splitWhile_cons_append_stop hed hdot, splitWhile_cons_append_stop hmad hdot,
      splitWhile_cons_append_stop hmid hdot, splitWhile_cons_append_stop hpad hdee,
      matchDev_dev, matchDev_nil]
  | nodevCommit hx h1 h2 h3 =>
    have hlen : (hx.length < 5 ∨ 40 < hx.length) = False := eq_false (by omega)
    simp only [List.append_assoc, List.cons_append, regexCaptures]
    simp only [splitWhile_cons_append_stop hed hdot, splitWhile_cons_append_stop hmad hdot,
      splitWhile_cons_append_stop hmid hdot, splitWhile_cons_append_stop hpad hcolon,
      matchDev_colon, splitWhile_all h1, hlen, if_false]
  | devCommit hx h1 h2 h3 =>
    have hlen : (hx.length < 5 ∨ 40 < hx.length) = False := eq_false (by omega)
    simp only [List.append_assoc, List.cons_append, regexCaptures]
    simp only [splitWhile_cons_append_stop hed hdot, splitWhile_cons_append_stop hmad hdot,
      splitWhile_cons_append_stop hmid hdot, splitWhile_cons_append_stop hpad hdee,
      matchDev_dev, matchDev_colon, splitWhile_all h1, hlen, if_false]
  | nodevBranch hx br h1 h2 h3 h4 h5 =>
    have hlen : (hx.length < 5 ∨ 40 < hx.length) = False := eq_false (by omega)
    obtain ⟨b1, bt, rfl⟩ := List.exists_cons_of_ne_nil h4
    simp only [List.append_assoc, List.cons_append, regexCaptures]
    simp only [splitWhile_cons_append_stop hed hdot, splitWhile_cons_append_stop hmad hdot,
      splitWhile_cons_append_stop hmid hdot, splitWhile_cons_append_stop hpad hcolon,
      matchDev_colon, splitWhile_append_stop h1 hat, hlen, if_false, splitWhile_all h5]
  | devBranch hx br h1 h2 h3 h4 h5 =>
    have hlen : (hx.length < 5 ∨ 40 < hx.length) = False := eq_false (by omega)
    obtain ⟨b1, bt, rfl⟩ := List.exists_cons_of_ne_nil h4
    simp only [List.append_assoc, List.cons_append, regexCaptures]
    simp only [splitWhile_cons_append_stop hed hdot, splitWhile_cons_append_stop hmad hdot,
      splitWhile_cons_append_stop hmid hdot, splitWhile_cons_append_stop hpad hdee,
      matchDev_dev, matchDev_colon, splitWhile_append_stop h1 hat, hlen, if_false,
      splitWhile_all h5]

theorem regexCaptures_display (v : KitVersion) (hwf : Wf v) :
    regexCaptures v.displayL =
      some ⟨natDec v.epoch, natDec v.major, natDec v.minor, natDec v.patch, v.dev,
            v.build_info.map BuildInfo.commit, v.build_info.bind BuildInfo.branch⟩ := by
  obtain ⟨e, ma, mi, pa, dev, bi⟩ := v
  obtain ⟨-, -, -, -, hbi⟩ := hwf
  have base := fun (tail : List Char) {dv} {cc} {bc} (h : BuildTail tail dv cc bc) =>
    regexCaptures_complete tail (natDec_ne_nil e) (natDec_all_digit e)
      (natDec_ne_nil ma) (natDec_all_digit ma) (natDec_ne_nil mi) (natDec_all_digit mi)
      (natDec_ne_nil pa) (natDec_all_digit pa) h
  rcases bi with - | ⟨commit, branch⟩
  · cases dev
    · have h := base [] BuildTail.nodevNone
      rw [List.append_nil] at h
      exact h
    · exact base ['d', 'e', 'v'] BuildTail.devNone
  · obtain ⟨hcall, hlen5, hlen40, hbr⟩ := hbi ⟨commit, branch⟩ rfl
    rcases branch with - | br
    · cases dev
      · exact base (':' :: commit) (BuildTail.nodevCommit commit hcall hlen5 hlen40)
      · exact base ('d' :: 'e' :: 'v' :: ':' :: commit)
          (BuildTail.devCommit commit hcall hlen5 hlen40)
    · obtain ⟨hbrne, hball⟩ := hbr br rfl
      cases dev
      · exact base (':' :: (commit ++ '@' :: br))
          (BuildTail.nodevBranch commit br hcall hlen5 hlen40 hbrne hball)
      · exact base ('d' :: 'e' :: 'v' :: ':' :: (commit ++ '@' :: br))
          (BuildTail.devBranch commit br hcall hlen5 hlen40 hbrne hball)

theorem tryFromL_display {v : KitVersion} (hwf : Wf v) :
    KitVersion.tryFromL v.displayL = .ok v := by
  have hc := regexCaptures_display v hwf
  obtain ⟨e, ma, mi, pa, dev, bi⟩ := v
  obtain ⟨he1, hma1, hmi1, hpa1, -⟩ := hwf
  replace he1 : e ≤ 65535 := he1
  replace hma1 : ma ≤ 255 := hma1
  replace hmi1 : mi ≤ 255 := hmi1
  replace hpa1 : pa ≤ 255 := hpa1
  rw [KitVersion.tryFromL, hc]
  simp only [decValC_natDec]
  rw [if_neg (by omega), if_neg (by omega), if_neg (by omega), if_neg (by omega)]
  rcases bi with - | ⟨c, b⟩
  · rfl
  · rcases b with - | br <;> rfl

/-! ## Inversion of a successful parse: the soundness half of the round-trip -/

theorem regexCaptures_capture_inv {s : List Char} {c : Captures}
    (h : regexCaptures s = some c) :
    (∀ hx, c.commitC = some hx →
       (∀ x ∈ hx, isHexLowerChar x = true) ∧ 5 ≤ hx.length ∧ hx.length ≤ 40) ∧
    (∀ br, c.branchC = some br → br ≠ [] ∧ ∀ x ∈ br, isWordChar x = true) ∧
    (c.commitC = none → c.branchC = none) := by
  rw [regexCaptures] at h
  split at h
  · exact absurd h (by simp)
  · split at h
    · exact absurd h (by simp)
    · split at h
      · exact absurd h (by simp)
      · split at h
        · exact absurd h (by simp)
        · split at h
          · -- leaf 1: no build suffix
            cases h
            simp
          · -- build suffix present
            rename_i r9x heqdev
            split at h
            rename_i hxp r10p heq
            have h1 : (r9x.takeWhile isHexLowerChar) = hxp := congrArg Prod.fst heq
            split at h
            · exact absurd h (by simp)
            · split at h
              · -- leaf 2: commit, no branch
                cases h
                refine ⟨?_, by simp, by simp⟩
                intro hx' hhx'
                cases hhx'
                refine ⟨?_, by omega, by omega⟩
                intro x hxm
                rw [← h1] at hxm
                exact List.mem_takeWhile_imp hxm
              · -- leaf 3: commit and branch
                rename_i heqprev r11x
                split at h
                · exact absurd h (by simp)
                · rename_i wp hne heqw
                  cases h
                  have h2 : (r11x.takeWhile isWordChar) = wp := congrArg Prod.fst heqw
                  refine ⟨?_, ?_, by simp⟩
                  · intro hx' hhx'
                    cases hhx'
                    refine ⟨?_, by omega, by omega⟩
                    intro x hxm
                    rw [← h1] at hxm
                    exact List.mem_takeWhile_imp hxm
                  · intro br hbr
                    cases hbr
                    refine ⟨?_, ?_⟩
                    · intro hnil
                      exact hne hnil
                    · intro x hxm
                      rw [← h2] at hxm
                      exact List.mem_takeWhile_imp hxm
                · exact absurd h (by simp)
              · exact absurd h (by simp)
          · exact absurd h (by simp)
      · exact absurd h (by simp)
    · exact absurd h (by simp)
  · exact absurd h (by simp)


theorem tryFromL_wf {s : List Char} {v : KitVersion} (h : KitVersion.tryFromL s = .ok v) :
    Wf v := by
  rw [KitVersion.tryFromL] at h
  split at h
  · exact absurd h (by simp)
  · rename_i caps heq
    have hinv := regexCaptures_capture_inv heq
    split at h
    · exact absurd h (by simp)
    · split at h
      · exact absurd h (by simp)
      · split at h
        · exact absurd h (by simp)
        · split at h
          · exact absurd h (by simp)
          · cases h
            refine ⟨show decValC caps.epochS ≤ 65535 by omega,
                    show decValC caps.majorS ≤ 255 by omega,
                    show decValC caps.minorS ≤ 255 by omega,
                    show decValC caps.patchS ≤ 255 by omega, ?_⟩
            intro bi hbi
            change buildInfoOfCaptures caps.commitC caps.branchC = some bi at hbi
            rcases hcc : caps.commitC with - | hx <;> rcases hbc : caps.branchC with - | br
            · rw [hcc, hbc] at hbi
              exact absurd hbi (by simp [buildInfoOfCaptures])
            · rw [hcc, hbc] at hbi
              exact absurd hbi (by simp [buildInfoOfCaptures])
            · rw [hcc, hbc] at hbi
              simp only [buildInfoOfCaptures, Option.some.injEq] at hbi
              obtain ⟨hhex, h5, h40⟩ := hinv.1 hx hcc
              subst hbi
              exact ⟨hhex, h5, h40, by simp⟩
            · rw [hcc, hbc] at hbi
              simp only [buildInfoOfCaptures, Option.some.injEq] at hbi
              obtain ⟨hhex, h5, h40⟩ := hinv.1 hx hcc
              obtain ⟨hne, hword⟩ := hinv.2.1 br hbc
              subst hbi
              refine ⟨hhex, h5, h40, ?_⟩
              intro br' hbr'
              cases hbr'
              exact ⟨hne, hword⟩

/-! ## Anchoring: every accepted string ends in a word character -/

theorem isWordChar_of_digit {c : Char} (h : c.isDigit = true) : isWordChar c = true := by
  simp [isWordChar, h]

theorem isWordChar_of_hexLower {c : Char} (h : isHexLowerChar c = true) :
    isWordChar c = true := by
  rw [isHexLowerChar, Bool.or_eq_true] at h
  rcases h with h | h
  · simp [isWordChar, h]
  · rw [Bool.and_eq_true] at h
    obtain ⟨h1, h2⟩ := h
    have h1' : 'a' ≤ c := of_decide_eq_true h1
    have hz : c ≤ 'z' := le_trans (of_decide_eq_true h2) (by decide)
    have hlow : c.isLower = true := by
      rw [Char.isLower, Bool.and_eq_true]
      exact ⟨decide_eq_true h1', decide_eq_true hz⟩
    simp [isWordChar, Char.isAlpha, hlow]

theorem ends_word_append {a b : List Char}
    (h : ∃ t x, b = t ++ [x] ∧ isWordChar x = true) :
    ∃ t x, a ++ b = t ++ [x] ∧ isWordChar x = true := by
  obtain ⟨t, x, rfl, hx⟩ := h
  exact ⟨a ++ t, x, by simp, hx⟩

theorem ends_word_cons {y : Char} {b : List Char}
    (h : ∃ t x, b = t ++ [x] ∧ isWordChar x = true) :
    ∃ t x, y :: b = t ++ [x] ∧ isWordChar x = true :=
  ends_word_append (a := [y]) h

theorem ends_word_of_all {l : List Char} (hne : l ≠ [])
    (hall : ∀ c ∈ l, isWordChar c = true) :
    ∃ t x, l = t ++ [x] ∧ isWordChar x = true := by
  rcases List.eq_nil_or_concat' l with rfl | ⟨t, x, rfl⟩
  · exact absurd rfl hne
  · exact ⟨t, x, rfl, hall x (by simp)⟩

theorem ends_word_digits {l : List Char} (hne : l ≠ [])
    (hall : ∀ c ∈ l, Char.isDigit c = true) :
    ∃ t x, l = t ++ [x] ∧ isWordChar x = true :=
  ends_word_of_all hne (fun c hc => isWordChar_of_digit (hall c hc))

theorem regexCaptures_ends_word {s : List Char} {c : Captures}
    (h : regexCaptures s = some c) :
    ∃ t x, s = t ++ [x] ∧ isWordChar x = true := by
  rw [regexCaptures] at h
  split at h
  · exact absurd h (by simp)
  · rename_i p1 eS r2 hene heqe
    have hse := splitWhile_eq heqe
    rw [hse.1]
    apply ends_word_append
    apply ends_word_cons
    split at h
    · exact absurd h (by simp)
    · rename_i p2 maS r4 hmane heqma
      have hsm := splitWhile_eq heqma
      rw [hsm.1]
      apply ends_word_append
      apply ends_word_cons
      split at h
      · exact absurd h (by simp)
      · rename_i p3 miS r6 hmine heqmi
        have hsi := splitWhile_eq heqmi
        rw [hsi.1]
        apply ends_word_append
        apply ends_word_cons
        split at h
        · exact absurd h (by simp)
        · rename_i p4 paS r7 hpane heqpa
          have hsp := splitWhile_eq heqpa
          rw [hsp.1]
          split at h
          · -- no build suffix: r7 is [] or "dev"
            rename_i p5 dv heqdev
            rcases matchDev_eq heqdev with ⟨-, rfl⟩ | ⟨-, rfl⟩
            · apply ends_word_append
              exact ⟨['d', 'e'], 'v', rfl, by decide⟩
            · rw [List.append_nil]
              exact ends_word_digits (fun hc => hpane hc) hsp.2
          · -- build suffix
            rename_i p5 dv r9 heqdev
            split at h
            rename_i hx r10 heqhex
            have hsh := splitWhile_eq heqhex
            split at h
            · exact absurd h (by simp)
            · rename_i hlen
              split at h
              · -- commit only: r10 = []
                rw [List.append_nil] at hsh
                have hx5 : 5 ≤ hx.length := by omega
                have hxne : hx ≠ [] := by
                  intro hcon
                  rw [hcon] at hx5
                  simp at hx5
                have hend : ∃ t x, r9 = t ++ [x] ∧ isWordChar x = true := by
                  rw [hsh.1]
                  exact ends_word_of_all hxne
                    (fun ch hch => isWordChar_of_hexLower (hsh.2 ch hch))
                rcases matchDev_eq heqdev with ⟨-, rfl⟩ | ⟨-, rfl⟩
                · apply ends_word_append
                  apply ends_word_cons
                  apply ends_word_cons
                  apply ends_word_cons
                  exact ends_word_cons hend
                · apply ends_word_append
                  exact ends_word_cons hend
              · -- commit and branch: r10 = '@' :: r11
                rename_i r11
                split at h
                · exact absurd h (by simp)
                · rename_i wS hwne heqw
                  have hsw := splitWhile_eq heqw
                  have hwend : ∃ t x, r11 = t ++ [x] ∧ isWordChar x = true := by
                    have : r11 = wS := by
                      rw [hsw.1, List.append_nil]
                    rw [this]
                    exact ends_word_of_all (fun hc => hwne hc) hsw.2
                  have hend : ∃ t x, r9 = t ++ [x] ∧ isWordChar x = true := by
                    rw [hsh.1]
                    apply ends_word_append
                    exact ends_word_cons hwend
                  rcases matchDev_eq heqdev with ⟨-, rfl⟩ | ⟨-, rfl⟩
                  · apply ends_word_append
                    apply ends_word_cons
                    apply ends_word_cons
                    apply ends_word_cons
                    exact ends_word_cons hend
                  · apply ends_word_append
                    exact ends_word_cons hend
                · exact absurd h (by simp)
              · exact absurd h (by simp)
          · exact absurd h (by simp)
      · exact absurd h (by simp)
    · exact absurd h (by simp)
  · exact absurd h (by simp)

theorem splitWhile_one_stop {p : Char → Bool} {x b : Char} (t : List Char)
    (hx : p x = true) (hb : p b = false) :
    splitWhile p (x :: b :: t) = ([x], b :: t) := by
  simp [splitWhile, List.takeWhile_cons, List.dropWhile_cons, hx, hb]

/-! ## Claim theorems -/

/-- C1: every KitVersion value obtained from a successful parse survives the
round trip — formatting it with Display and parsing the resulting string
succeeds and returns an equal value. -/
theorem C1_parse_format_roundtrip (s : String) (v : KitVersion)
    (h : KitVersion.tryFrom s = .ok v) :
    KitVersion.tryFrom v.toStr = .ok v :=
  tryFromL_display (tryFromL_wf h)

theorem C1_parse_format_roundtrip_witness :
    KitVersion.tryFrom "2021.0.0.1dev:123456@master" =
      .ok ⟨2021, 0, 0, 1, true, some ⟨"123456".data, some "master".data⟩⟩ ∧
    KitVersion.tryFrom (KitVersion.toStr
        ⟨2021, 0, 0, 1, true, some ⟨"123456".data, some "master".data⟩⟩) =
      .ok ⟨2021, 0, 0, 1, true, some ⟨"123456".data, some "master".data⟩⟩ :=
  ⟨rfl, C1_parse_format_roundtrip "2021.0.0.1dev:123456@master" _ rfl⟩

/-- C4: the Display implementation is total (defined for every value,
directly field-constructed ones included) and produces exactly the canonical
string — the four components joined by dots, `dev` appended exactly when the
flag is set, `:` plus commit (plus `@` plus branch when present) appended
exactly when build metadata is present. -/
theorem C4_display_canonical (v : KitVersion) : v.displayL = v.canonicalL := by
  obtain ⟨e, ma, mi, pa, dev, bi⟩ := v
  rcases bi with - | ⟨c, b⟩
  · cases dev <;>
      simp [KitVersion.displayL, KitVersion.canonicalL]
  · rcases b with - | br <;> cases dev <;>
      simp [KitVersion.displayL, KitVersion.canonicalL, BuildInfo.displayL]

/-- C8: the six strings of the grammar acceptance table all parse, with the
dev flag set exactly when the string carries the `dev` suffix, the commit
capture equal to `123456` when `:123456` is present, and the branch capture
equal to `master` when `@master` is present. -/
theorem C8_acceptance_table :
    KitVersion.tryFrom "2021.0.0.1" = .ok ⟨2021, 0, 0, 1, false, none⟩ ∧
    KitVersion.tryFrom "2021.0.0.1dev" = .ok ⟨2021, 0, 0, 1, true, none⟩ ∧
    KitVersion.tryFrom "2021.0.0.1:123456" =
      .ok ⟨2021, 0, 0, 1, false, some ⟨"123456".data, none⟩⟩ ∧
    KitVersion.tryFrom "2021.0.0.1dev:123456" =
      .ok ⟨2021, 0, 0, 1, true, some ⟨"123456".data, none⟩⟩ ∧
    KitVersion.tryFrom "2021.0.0.1:123456@master" =
      .ok ⟨2021, 0, 0, 1, false, some ⟨"123456".data, some "master".data⟩⟩ ∧
    KitVersion.tryFrom "2021.0.0.1dev:123456@master" =
      .ok ⟨2021, 0, 0, 1, true, some ⟨"123456".data, some "master".data⟩⟩ :=
  ⟨rfl, rfl, rfl, rfl, rfl, rfl⟩

/-- C9: a successful parse never yields build metadata carrying a branch
without a commit — the source's match discards a branch capture that comes
without a commit capture, and the grammar never produces a branch capture
without a commit capture in the first place. -/
theorem C9_branch_needs_commit :
    (∀ b, buildInfoOfCaptures none (some b) = none) ∧
    (∀ (s : List Char) (c : Captures), regexCaptures s = some c →
      c.commitC = none → c.branchC = none) :=
  ⟨fun _ => rfl, fun _ _ h hc => (regexCaptures_capture_inv h).2.2 hc⟩

theorem C9_branch_needs_commit_witness :
    buildInfoOfCaptures none (some "master".data) = none ∧
    Captures.branchC ⟨['1'], ['0'], ['0'], ['0'], false, none, none⟩ = none :=
  ⟨C9_branch_needs_commit.1 "master".data,
   C9_branch_needs_commit.2 "1.0.0.0".data ⟨['1'], ['0'], ['0'], ['0'], false, none, none⟩
     rfl rfl⟩

theorem regexCaptures_starts_digit {s : List Char} {c : Captures}
    (h : regexCaptures s = some c) :
    ∃ d t, s = d :: t ∧ Char.isDigit d = true := by
  rw [regexCaptures] at h
  split at h
  · exact absurd h (by simp)
  · rename_i p1 eS r2 hene heqe
    have hse := splitWhile_eq heqe
    rcases heS : eS with - | ⟨d, ds⟩
    · exact absurd heS hene
    · refine ⟨d, ds ++ '.' :: r2, ?_, ?_⟩
      · rw [hse.1, heS]
        rfl
      · exact hse.2 d (by rw [heS]; simp)
  · exact absurd h (by simp)

/-- C6 counterexample: the claim says every valid version with ANY trailing
character added fails to parse; but appending the digit '2' to the parseable
"2021.0.0.1" gives "2021.0.0.12", which parses successfully (as patch 12).
Likewise prepending the digit '1' gives "12021.0.0.1", which also parses. -/
theorem C6_counterexample :
    (KitVersion.tryFrom "2021.0.0.1").isOk = true ∧
    "2021.0.0.12".data = "2021.0.0.1".data ++ ['2'] ∧
    (KitVersion.tryFrom "2021.0.0.12").isOk = true ∧
    "12021.0.0.1".data = '1' :: "2021.0.0.1".data ∧
    (KitVersion.tryFrom "12021.0.0.1").isOk = true :=
  ⟨rfl, rfl, rfl, rfl, rfl⟩

/-- C6 (amended): the grammar is anchored at both ends for whitespace — for
every string that parses successfully, adding a leading or trailing
whitespace character (space, tab, newline or carriage return) makes the
parse fail with the not-in-valid-format error.  (Adding an arbitrary
character cannot be rejected in general: a trailing digit can extend the
patch component into another valid version, see the counterexample.) -/
theorem C6_whitespace_anchored (s : String) (v : KitVersion) (c : Char)
    (h : KitVersion.tryFrom s = .ok v) (hc : c ∈ [' ', '\t', '\n', '\r']) :
    KitVersion.tryFromL (c :: s.data) = .error "version was not in valid format." ∧
    KitVersion.tryFromL (s.data ++ [c]) = .error "version was not in valid format." := by
  have hcw : isWordChar c = false := by fin_cases hc <;> decide
  have hcd : Char.isDigit c = false := by fin_cases hc <;> decide
  constructor
  · have hnone : regexCaptures (c :: s.data) = none := by
      rcases hcap : regexCaptures (c :: s.data) with - | caps
      · rfl
      · obtain ⟨d, t, hdt, hdig⟩ := regexCaptures_starts_digit hcap
        rw [List.cons.injEq] at hdt
        rw [hdt.1] at hcd
        rw [hdig] at hcd
        cases hcd
    rw [KitVersion.tryFromL, hnone]
  · have hnone : regexCaptures (s.data ++ [c]) = none := by
      rcases hcap : regexCaptures (s.data ++ [c]) with - | caps
      · rfl
      · obtain ⟨t, x, hx, hword⟩ := regexCaptures_ends_word hcap
        have : some c = some x := by
          rw [← List.getLast?_concat (l := s.data), hx, List.getLast?_concat]
        cases this
        rw [hword] at hcw
        cases hcw
    rw [KitVersion.tryFromL, hnone]

theorem C6_whitespace_anchored_witness :
    KitVersion.tryFrom "2021.0.0.1" = .ok ⟨2021, 0, 0, 1, false, none⟩ ∧
    ' ' ∈ [' ', '\t', '\n', '\r'] ∧
    (KitVersion.tryFromL (' ' :: "2021.0.0.1".data) =
       .error "version was not in valid format." ∧
     KitVersion.tryFromL ("2021.0.0.1".data ++ [' ']) =
       .error "version was not in valid format.") :=
  ⟨rfl, by decide,
   C6_whitespace_anchored "2021.0.0.1" ⟨2021, 0, 0, 1, false, none⟩ ' ' rfl (by decide)⟩

/-- C3: the parser has exactly two kinds of error, and they are distinct —
the generic not-in-valid-format error exactly when the regular expression
does not match; a component-specific overflow error, checked in source order
(epoch, then major, minor, patch), when a numeric capture exceeds its
declared width; when everything matches and fits, the parse succeeds with
the exact captured values (no silent wrap); no other error string exists,
and the five error strings are pairwise distinct. -/
theorem C3_error_taxonomy :
    (∀ s, regexCaptures s = none →
      KitVersion.tryFromL s = .error "version was not in valid format.") ∧
    (∀ s c, regexCaptures s = some c → 65535 < decValC c.epochS →
      KitVersion.tryFromL s = .error "Unable to parse version epoch") ∧
    (∀ s c, regexCaptures s = some c → decValC c.epochS ≤ 65535 →
      255 < decValC c.majorS →
      KitVersion.tryFromL s = .error "Unable to parse version major value") ∧
    (∀ s c, regexCaptures s = some c → decValC c.epochS ≤ 65535 →
      decValC c.majorS ≤ 255 → 255 < decValC c.minorS →
      KitVersion.tryFromL s = .error "Unable to parse version minor value") ∧
    (∀ s c, regexCaptures s = some c → decValC c.epochS ≤ 65535 →
      decValC c.majorS ≤ 255 → decValC c.minorS ≤ 255 → 255 < decValC c.patchS →
      KitVersion.tryFromL s = .error "Unable to parse version patch value") ∧
    (∀ s c, regexCaptures s = some c → decValC c.epochS ≤ 65535 →
      decValC c.majorS ≤ 255 → decValC c.minorS ≤ 255 → decValC c.patchS ≤ 255 →
      KitVersion.tryFromL s =
        .ok ⟨decValC c.epochS, decValC c.majorS, decValC c.minorS, decValC c.patchS,
             c.devC, buildInfoOfCaptures c.commitC c.branchC⟩) ∧
    (∀ s e, KitVersion.tryFromL s = .error e →
      e ∈ ["version was not in valid format.", "Unable to parse version epoch",
           "Unable to parse version major value", "Unable to parse version minor value",
           "Unable to parse version patch value"]) ∧
    List.Pairwise (fun a b => a ≠ b)
      ["version was not in valid format.", "Unable to parse version epoch",
       "Unable to parse version major value", "Unable to parse version minor value",
       "Unable to parse version patch value"] := by
  refine ⟨?_, ?_, ?_, ?_, ?_, ?_, ?_, by decide⟩
  · intro s hn
    rw [KitVersion.tryFromL, hn]
  · intro s c hc hover
    rw [KitVersion.tryFromL, hc]
    simp only [if_pos hover]
  · intro s c hc h1 hover
    rw [KitVersion.tryFromL, hc]
    simp only [if_neg (show ¬ 65535 < decValC c.epochS by omega), if_pos hover]
  · intro s c hc h1 h2 hover
    rw [KitVersion.tryFromL, hc]
    simp only [if_neg (show ¬ 65535 < decValC c.epochS by omega),
      if_neg (show ¬ 255 < decValC c.majorS by omega), if_pos hover]
  · intro s c hc h1 h2 h3 hover
    rw [KitVersion.tryFromL, hc]
    simp only [if_neg (show ¬ 65535 < decValC c.epochS by omega),
      if_neg (show ¬ 255 < decValC c.majorS by omega),
      if_neg (show ¬ 255 < decValC c.minorS by omega), if_pos hover]
  · intro s c hc h1 h2 h3 h4
    rw [KitVersion.tryFromL, hc]
    simp only [if_neg (show ¬ 65535 < decValC c.epochS by omega),
      if_neg (show ¬ 255 < decValC c.majorS by omega),
      if_neg (show ¬ 255 < decValC c.minorS by omega),
      if_neg (show ¬ 255 < decValC c.patchS by omega)]
  · intro s e h
    rw [KitVersion.tryFromL] at h
    split at h
    · cases h
      simp
    · split at h
      · cases h
        simp
      · split at h
        · cases h
          simp
        · split at h
          · cases h
            simp
          · split at h
            · cases h
              simp
            · exact absurd h (by simp)

theorem C3_error_taxonomy_witness :
    KitVersion.tryFromL "x".data = .error "version was not in valid format." ∧
    KitVersion.tryFromL "99999.0.0.0".data = .error "Unable to parse version epoch" ∧
    KitVersion.tryFromL "1.300.0.0".data = .error "Unable to parse version major value" ∧
    KitVersion.tryFromL "1.0.300.0".data = .error "Unable to parse version minor value" ∧
    KitVersion.tryFromL "1.0.0.300".data = .error "Unable to parse version patch value" ∧
    KitVersion.tryFromL "1.0.0.1".data = .ok ⟨1, 0, 0, 1, false, none⟩ :=
  ⟨C3_error_taxonomy.1 _ rfl,
   C3_error_taxonomy.2.1 _ ⟨"99999".data, "0".data, "0".data, "0".data, false, none, none⟩
     rfl (by decide),
   C3_error_taxonomy.2.2.1 _ ⟨"1".data, "300".data, "0".data, "0".data, false, none, none⟩
     rfl (by decide) (by decide),
   C3_error_taxonomy.2.2.2.1 _ ⟨"1".data, "0".data, "300".data, "0".data, false, none, none⟩
     rfl (by decide) (by decide) (by decide),
   C3_error_taxonomy.2.2.2.2.1 _ ⟨"1".data, "0".data, "0".data, "300".data, false, none, none⟩
     rfl (by decide) (by decide) (by decide) (by decide),
   C3_error_taxonomy.2.2.2.2.2.1 _ ⟨"1".data, "0".data, "0".data, "1".data, false, none, none⟩
     rfl (by decide) (by decide) (by decide) (by decide)⟩

/-- C7: with a fixed valid numeric core, a `:`-introduced commit is accepted
exactly when it is 5 to 40 lowercase-hex characters — every all-hex commit of
length 5 to 40 parses to build metadata carrying exactly that commit; every
all-hex run of length under 5 or over 40 makes the whole parse fail with the
not-in-valid-format error; and a commit containing an uppercase or non-hex
character fails the same way (concrete lengths 5, 40, 4 and 41 included). -/
theorem C7_commit_bounds :
    (∀ hx : List Char, (∀ x ∈ hx, isHexLowerChar x = true) →
      5 ≤ hx.length → hx.length ≤ 40 →
      KitVersion.tryFromL ('0' :: '.' :: '0' :: '.' :: '0' :: '.' :: '0' :: ':' :: hx) =
        .ok ⟨0, 0, 0, 0, false, some ⟨hx, none⟩⟩) ∧
    (∀ hx : List Char, (∀ x ∈ hx, isHexLowerChar x = true) →
      (hx.length < 5 ∨ 40 < hx.length) →
      KitVersion.tryFromL ('0' :: '.' :: '0' :: '.' :: '0' :: '.' :: '0' :: ':' :: hx) =
        .error "version was not in valid format.") ∧
    KitVersion.tryFrom "0.0.0.0:aaaaa" = .ok ⟨0, 0, 0, 0, false, some ⟨"aaaaa".data, none⟩⟩ ∧
    KitVersion.tryFrom "0.0.0.0:aaaaaaaaaaaaaaaaaaaaaaaaaaaaaaaaaaaaaaaa" =
      .ok ⟨0, 0, 0, 0, false,
           some ⟨"aaaaaaaaaaaaaaaaaaaaaaaaaaaaaaaaaaaaaaaa".data, none⟩⟩ ∧
    KitVersion.tryFrom "0.0.0.0:aaaa" = .error "version was not in valid format." ∧
    KitVersion.tryFrom "0.0.0.0:aaaaaaaaaaaaaaaaaaaaaaaaaaaaaaaaaaaaaaaaa" =
      .error "version was not in valid format." ∧
    KitVersion.tryFrom "0.0.0.0:ABCDE" = .error "version was not in valid format." ∧
    KitVersion.tryFrom "0.0.0.0:ghijk" = .error "version was not in valid format." := by
  have hd0 : Char.isDigit '0' = true := by decide
  have hdot : Char.isDigit '.' = false := by decide
  have hcolon : Char.isDigit ':' = false := by decide
  refine ⟨?_, ?_, rfl, rfl, rfl, rfl, rfl, rfl⟩
  · intro hx hhex h5 h40
    have hlen : (hx.length < 5 ∨ 40 < hx.length) = False := eq_false (by omega)
    have hcap : regexCaptures ('0' :: '.' :: '0' :: '.' :: '0' :: '.' :: '0' :: ':' :: hx) =
        some ⟨['0'], ['0'], ['0'], ['0'], false, some hx, none⟩ := by
      simp only [regexCaptures]
      simp only [splitWhile_one_stop _ hd0 hdot, splitWhile_one_stop _ hd0 hcolon,
        matchDev_colon, splitWhile_all hhex, hlen, if_false]
    rw [KitVersion.tryFromL, hcap]
    rfl
  · intro hx hhex hbad
    have hlen : (hx.length < 5 ∨ 40 < hx.length) = True := eq_true hbad
    have hcap : regexCaptures ('0' :: '.' :: '0' :: '.' :: '0' :: '.' :: '0' :: ':' :: hx) =
        none := by
      simp only [regexCaptures]
      simp only [splitWhile_one_stop _ hd0 hdot, splitWhile_one_stop _ hd0 hcolon,
        matchDev_colon, splitWhile_all hhex, hlen, if_true]
    rw [KitVersion.tryFromL, hcap]

theorem C7_commit_bounds_witness :
    KitVersion.tryFromL ('0' :: '.' :: '0' :: '.' :: '0' :: '.' :: '0' :: ':' :: "abcde".data) =
      .ok ⟨0, 0, 0, 0, false, some ⟨"abcde".data, none⟩⟩ ∧
    KitVersion.tryFromL ('0' :: '.' :: '0' :: '.' :: '0' :: '.' :: '0' :: ':' :: "abc".data) =
      .error "version was not in valid format." :=
  ⟨C7_commit_bounds.1 "abcde".data (by decide) (by decide) (by decide),
   C7_commit_bounds.2.1 "abc".data (by decide) (by decide)⟩

/-! ## Inversion of a successful schema decode -/

theorem except_bind_ok {α β : Type} {x : Except SchemaError α} {f : α → Except SchemaError β}
    {b : β} (h : x >>= f = .ok b) : ∃ a, x = .ok a ∧ f a = .ok b := by
  cases x with
  | error e => exact absurd h (by simp [Bind.bind, Except.bind])
  | ok a => exact ⟨a, rfl, h⟩

theorem checkKnown_ok {p : String} {allowed : List String} {kvs : List (String × Toml)}
    {u : Unit} (h : checkKnown p allowed kvs = .ok u) :
    ∀ kv ∈ kvs, allowed.contains kv.1 = true := by
  rw [checkKnown] at h
  split at h
  · rename_i hall
    exact List.all_eq_true.mp hall
  · cases h

theorem getField_ok {p k : String} {kvs : List (String × Toml)} {v : Toml}
    (h : getField p k kvs = .ok v) : lookupField k kvs = some v := by
  rw [getField] at h
  split at h
  · cases h
  · rename_i v' heq
    cases h
    exact heq

theorem asString_ok {p : String} {t : Toml} {s : String} (h : asString p t = .ok s) :
    t = .str s := by
  cases t with
  | str x => cases h; rfl
  | boolVal b => exact absurd h (by simp [asString])
  | table kvs => exact absurd h (by simp [asString])

theorem asBool_ok {p : String} {t : Toml} {b : Bool} (h : asBool p t = .ok b) :
    t = .boolVal b := by
  cases t with
  | str x => exact absurd h (by simp [asBool])
  | boolVal b' => cases h; rfl
  | table kvs => exact absurd h (by simp [asBool])

theorem asTable_ok {p : String} {t : Toml} {kvs : List (String × Toml)}
    (h : asTable p t = .ok kvs) : t = .table kvs := by
  cases t with
  | str x => exact absurd h (by simp [asTable])
  | boolVal b => exact absurd h (by simp [asTable])
  | table kvs' => cases h; rfl

theorem asKitVersion_ok {p : String} {t : Toml} {v : KitVersion}
    (h : asKitVersion p t = .ok v) :
    ∃ s, t = .str s ∧ KitVersion.tryFrom s = .ok v := by
  cases t with
  | str x =>
    refine ⟨x, rfl, ?_⟩
    rw [asKitVersion] at h
    rcases htf : KitVersion.tryFrom x with e | v'
    · rw [htf] at h
      exact absurd h (by simp)
    · rw [htf] at h
      cases h
      rfl
  | boolVal b => exact absurd h (by simp [asKitVersion])
  | table kvs => exact absurd h (by simp [asKitVersion])

theorem decodeBundleSection_ok {kvs : List (String × Toml)} {b : BundleVersionSection}
    (h : decodeBundleSection kvs = .ok b) :
    (∀ kv ∈ kvs, (["version"] : List String).contains kv.1 = true) ∧
    lookupField "version" kvs = some (.str b.version) := by
  rw [decodeBundleSection] at h
  obtain ⟨u, hck, h⟩ := except_bind_ok h
  obtain ⟨v, hgv, h⟩ := except_bind_ok h
  obtain ⟨tv, hget, hstr⟩ := except_bind_ok hgv
  cases h
  exact ⟨checkKnown_ok hck, by rw [getField_ok hget, asString_ok hstr]⟩

theorem decodeKitSection_ok {kvs : List (String × Toml)} {k : KitInformationSection}
    (h : decodeKitSection kvs = .ok k) :
    (∀ kv ∈ kvs, (["name", "version"] : List String).contains kv.1 = true) ∧
    lookupField "name" kvs = some (.str k.name) ∧
    ∃ s, lookupField "version" kvs = some (.str s) ∧ KitVersion.tryFrom s = .ok k.version := by
  rw [decodeKitSection] at h
  obtain ⟨u, hck, h⟩ := except_bind_ok h
  obtain ⟨n, hgn, h⟩ := except_bind_ok h
  obtain ⟨tn, hgetn, hstrn⟩ := except_bind_ok hgn
  obtain ⟨v, hgv, h⟩ := except_bind_ok h
  obtain ⟨tv, hgetv, hver⟩ := except_bind_ok hgv
  cases h
  obtain ⟨s, hts, htf⟩ := asKitVersion_ok hver
  refine ⟨checkKnown_ok hck, by rw [getField_ok hgetn, asString_ok hstrn], s, ?_, htf⟩
  rw [getField_ok hgetv, hts]

theorem decodeWiFiSection_ok {kvs : List (String × Toml)} {w : WiFiInformationSection}
    (h : decodeWiFiSection kvs = .ok w) :
    (∀ kv ∈ kvs, (["ssid", "psk", "enabled", "region"] : List String).contains kv.1 = true) ∧
    lookupField "ssid" kvs = some (.str w.ssid) ∧
    lookupField "psk" kvs = some (.str w.psk) ∧
    lookupField "enabled" kvs = some (.boolVal w.enabled) ∧
    lookupField "region" kvs = some (.str w.region) := by
  rw [decodeWiFiSection] at h
  obtain ⟨u, hck, h⟩ := except_bind_ok h
  obtain ⟨s1, hg1, h⟩ := except_bind_ok h
  obtain ⟨t1, hget1, hs1⟩ := except_bind_ok hg1
  obtain ⟨s2, hg2, h⟩ := except_bind_ok h
  obtain ⟨t2, hget2, hs2⟩ := except_bind_ok hg2
  obtain ⟨e1, hg3, h⟩ := except_bind_ok h
  obtain ⟨t3, hget3, hs3⟩ := except_bind_ok hg3
  obtain ⟨r1, hg4, h⟩ := except_bind_ok h
  obtain ⟨t4, hget4, hs4⟩ := except_bind_ok hg4
  cases h
  exact ⟨checkKnown_ok hck,
    by rw [getField_ok hget1, asString_ok hs1],
    by rw [getField_ok hget2, asString_ok hs2],
    by rw [getField_ok hget3, asBool_ok hs3],
    by rw [getField_ok hget4, asString_ok hs4]⟩

theorem decodeSchema_ok {doc : Toml} {x : BundleInformationSchema}
    (h : decodeSchema doc = .ok x) :
    ∃ kvs bkvs kkvs wkvs,
      doc = .table kvs ∧
      (∀ kv ∈ kvs, (["bundle", "kit", "wifi"] : List String).contains kv.1 = true) ∧
      lookupField "bundle" kvs = some (.table bkvs) ∧
      (∀ kv ∈ bkvs, (["version"] : List String).contains kv.1 = true) ∧
      lookupField "version" bkvs = some (.str x.bundle.version) ∧
      lookupField "kit" kvs = some (.table kkvs) ∧
      (∀ kv ∈ kkvs, (["name", "version"] : List String).contains kv.1 = true) ∧
      lookupField "name" kkvs = some (.str x.kit.name) ∧
      (∃ s, lookupField "version" kkvs = some (.str s) ∧
        KitVersion.tryFrom s = .ok x.kit.version) ∧
      lookupField "wifi" kvs = some (.table wkvs) ∧
      (∀ kv ∈ wkvs, (["ssid", "psk", "enabled", "region"] : List String).contains kv.1 = true) ∧
      lookupField "ssid" wkvs = some (.str x.wifi.ssid) ∧
      lookupField "psk" wkvs = some (.str x.wifi.psk) ∧
      lookupField "enabled" wkvs = some (.boolVal x.wifi.enabled) ∧
      lookupField "region" wkvs = some (.str x.wifi.region) := by
  rw [decodeSchema] at h
  obtain ⟨kvs, htab, h⟩ := except_bind_ok h
  obtain ⟨u, hck, h⟩ := except_bind_ok h
  obtain ⟨b, hgb, h⟩ := except_bind_ok h
  obtain ⟨bkvs, hgb2, hbdec⟩ := except_bind_ok hgb
  obtain ⟨tb1, hgb1, hbt⟩ := except_bind_ok hgb2
  obtain ⟨k, hgk, h⟩ := except_bind_ok h
  obtain ⟨kkvs, hgk2, hkdec⟩ := except_bind_ok hgk
  obtain ⟨tk1, hgk1, hkt⟩ := except_bind_ok hgk2
  obtain ⟨w, hgw, h⟩ := except_bind_ok h
  obtain ⟨wkvs, hgw2, hwdec⟩ := except_bind_ok hgw
  obtain ⟨tw1, hgw1, hwt⟩ := except_bind_ok hgw2
  cases h
  obtain ⟨hbk, hbv⟩ := decodeBundleSection_ok hbdec
  obtain ⟨hkk, hkn, s, hkv, htf⟩ := decodeKitSection_ok hkdec
  obtain ⟨hwk, hws, hwp, hwe, hwr⟩ := decodeWiFiSection_ok hwdec
  refine ⟨kvs, bkvs, kkvs, wkvs, asTable_ok htab, checkKnown_ok hck, ?_, hbk, hbv,
    ?_, hkk, hkn, ⟨s, hkv, htf⟩, ?_, hwk, hws, hwp, hwe, hwr⟩
  · rw [getField_ok hgb1, asTable_ok hbt]
  · rw [getField_ok hgk1, asTable_ok hkt]
  · rw [getField_ok hgw1, asTable_ok hwt]

/-- C2: loading a configuration document rejects — with an error and no
partial result — any document carrying a field outside the closed schema at
the top level or inside any section, any document missing one of the seven
required fields, and any document giving `wifi.enabled` as a string instead
of a boolean. -/
theorem C2_schema_rejection :
    (∀ doc, hasUnknownKey doc → (decodeSchema doc).isOk = false) ∧
    (∀ doc, missingRequiredField doc → (decodeSchema doc).isOk = false) ∧
    (∀ doc, enabledIsString doc → (decodeSchema doc).isOk = false) := by
  refine ⟨?_, ?_, ?_⟩
  all_goals intro doc hprop
  all_goals rcases hdec : decodeSchema doc with e | x
  · rfl
  · exfalso
    obtain ⟨kvs, bkvs, kkvs, wkvs, rfl, htop, hbl, hbk, hbv, hkl, hkk, hkn, hkv, hwl,
      hwk, hws, hwp, hwe, hwr⟩ := decodeSchema_ok hdec
    obtain ⟨kvs', heq, hbad⟩ := hprop
    rw [Toml.table.injEq] at heq
    subst heq
    rcases hbad with ⟨kv, hmem, hnot⟩ | ⟨skvs, hlook, kv, hmem, hnot⟩ |
      ⟨skvs, hlook, kv, hmem, hnot⟩ | ⟨skvs, hlook, kv, hmem, hnot⟩
    · exact hnot (htop kv hmem)
    · rw [hbl, Option.some.injEq, Toml.table.injEq] at hlook
      subst hlook
      exact hnot (hbk kv hmem)
    · rw [hkl, Option.some.injEq, Toml.table.injEq] at hlook
      subst hlook
      exact hnot (hkk kv hmem)
    · rw [hwl, Option.some.injEq, Toml.table.injEq] at hlook
      subst hlook
      exact hnot (hwk kv hmem)
  · rfl
  · exfalso
    obtain ⟨kvs, bkvs, kkvs, wkvs, rfl, htop, hbl, hbk, hbv, hkl, hkk, hkn, hkv, hwl,
      hwk, hws, hwp, hwe, hwr⟩ := decodeSchema_ok hdec
    obtain ⟨kvs', heq, hbad⟩ := hprop
    rw [Toml.table.injEq] at heq
    subst heq
    obtain ⟨s, hkvs, htf⟩ := hkv
    rcases hbad with hb | hb | hb | hb | hb | hb | hb
    · rcases hb with hnone | ⟨skvs, hlook, hfield⟩
      · rw [hbl] at hnone; cases hnone
      · rw [hbl, Option.some.injEq, Toml.table.injEq] at hlook
        subst hlook
        rw [hbv] at hfield; cases hfield
    · rcases hb with hnone | ⟨skvs, hlook, hfield⟩
      · rw [hkl] at hnone; cases hnone
      · rw [hkl, Option.some.injEq, Toml.table.injEq] at hlook
        subst hlook
        rw [hkn] at hfield; cases hfield
    · rcases hb with hnone | ⟨skvs, hlook, hfield⟩
      · rw [hkl] at hnone; cases hnone
      · rw [hkl, Option.some.injEq, Toml.table.injEq] at hlook
        subst hlook
        rw [hkvs] at hfield; cases hfield
    · rcases hb with hnone | ⟨skvs, hlook, hfield⟩
      · rw [hwl] at hnone; cases hnone
      · rw [hwl, Option.some.injEq, Toml.table.injEq] at hlook
        subst hlook
        rw [hws] at hfield; cases hfield
    · rcases hb with hnone | ⟨skvs, hlook, hfield⟩
      · rw [hwl] at hnone; cases hnone
      · rw [hwl, Option.some.injEq, Toml.table.injEq] at hlook
        subst hlook
        rw [hwp] at hfield; cases hfield
    · rcases hb with hnone | ⟨skvs, hlook, hfield⟩
      · rw [hwl] at hnone; cases hnone
      · rw [hwl, Option.some.injEq, Toml.table.injEq] at hlook
        subst hlook
        rw [hwe] at hfield; cases hfield
    · rcases hb with hnone | ⟨skvs, hlook, hfield⟩
      · rw [hwl] at hnone; cases hnone
      · rw [hwl, Option.some.injEq, Toml.table.injEq] at hlook
        subst hlook
        rw [hwr] at hfield; cases hfield
  · rfl
  · exfalso
    obtain ⟨kvs, bkvs, kkvs, wkvs, rfl, htop, hbl, hbk, hbv, hkl, hkk, hkn, hkv, hwl,
      hwk, hws, hwp, hwe, hwr⟩ := decodeSchema_ok hdec
    obtain ⟨kvs', skvs, s, heq, hlook, hen⟩ := hprop
    rw [Toml.table.injEq] at heq
    subst heq
    rw [hwl, Option.some.injEq, Toml.table.injEq] at hlook
    subst hlook
    rw [hwe, Option.some.injEq] at hen
    cases hen

theorem C2_schema_rejection_witness :
    (decodeSchema (.table [("extra", .str "x")])).isOk = false ∧
    (decodeSchema (.table [])).isOk = false ∧
    (decodeSchema (.table [("wifi", .table [("enabled", .str "yes")])])).isOk = false :=
  ⟨C2_schema_rejection.1 _ ⟨[("extra", .str "x")], rfl,
      Or.inl ⟨("extra", .str "x"), by simp, by decide⟩⟩,
   C2_schema_rejection.2.1 _ ⟨[], rfl, Or.inl (Or.inl rfl)⟩,
   C2_schema_rejection.2.2 _ ⟨[("wifi", .table [("enabled", .str "yes")])],
      [("enabled", .str "yes")], "yes", rfl, rfl, rfl⟩⟩

/-- C5: a schema value obtained from a successful decode, re-serialized and
re-decoded, comes back equal in every field — a semantic round trip through
the structured document form. -/
theorem C5_semantic_roundtrip (doc : Toml) (x : BundleInformationSchema)
    (h : decodeSchema doc = .ok x) :
    decodeSchema (encodeSchema x) = .ok x := by
  obtain ⟨kvs, bkvs, kkvs, wkvs, -, -, -, -, -, -, -, -, hkv, -, -, -, -, -, -⟩ :=
    decodeSchema_ok h
  obtain ⟨s, -, htf⟩ := hkv
  have hround : KitVersion.tryFrom x.kit.version.toStr = .ok x.kit.version :=
    tryFromL_display (tryFromL_wf htf)
  obtain ⟨⟨bv⟩, ⟨kn, kv⟩, ⟨ws, wp, we, wr⟩⟩ := x
  simp only [encodeSchema] at hround ⊢
  simp [decodeSchema, decodeBundleSection, decodeKitSection, decodeWiFiSection,
    asTable, checkKnown, getField, lookupField, asString, asBool, asKitVersion,
    Bind.bind, Except.bind, hround]

theorem C5_semantic_roundtrip_witness :
    decodeSchema (.table
      [("bundle", .table [("version", .str "2.0.0")]),
       ("kit", .table [("name", .str "Student Robotics"), ("version", .str "2022.1.4.0")]),
       ("wifi", .table [("ssid", .str "robot-ABC"), ("psk", .str "beeeeees"),
                        ("enabled", .boolVal true), ("region", .str "GB")])]) =
      .ok ⟨⟨"2.0.0"⟩, ⟨"Student Robotics", ⟨2022, 1, 4, 0, false, none⟩⟩,
           ⟨"robot-ABC", "beeeeees", true, "GB"⟩⟩ ∧
    decodeSchema (encodeSchema
      ⟨⟨"2.0.0"⟩, ⟨"Student Robotics", ⟨2022, 1, 4, 0, false, none⟩⟩,
       ⟨"robot-ABC", "beeeeees", true, "GB"⟩⟩) =
      .ok ⟨⟨"2.0.0"⟩, ⟨"Student Robotics", ⟨2022, 1, 4, 0, false, none⟩⟩,
           ⟨"robot-ABC", "beeeeees", true, "GB"⟩⟩ :=
  ⟨rfl, C5_semantic_roundtrip (.table
      [("bundle", .table [("version", .str "2.0.0")]),
       ("kit", .table [("name", .str "Student Robotics"), ("version", .str "2022.1.4.0")]),
       ("wifi", .table [("ssid", .str "robot-ABC"), ("psk", .str "beeeeees"),
                        ("enabled", .boolVal true), ("region", .str "GB")])])
      ⟨⟨"2.0.0"⟩, ⟨"Student Robotics", ⟨2022, 1, 4, 0, false, none⟩⟩,
       ⟨"robot-ABC", "beeeeees", true, "GB"⟩⟩ rfl⟩

/-- C10: serializing a schema value whose kit version came from a successful
parse always passes the TOML text encoder's acceptance check (each table has
its scalar entries before its sub-table entries), so the unwrap inside
`to_string` never panics. -/
theorem C10_to_string_total (x : BundleInformationSchema) (s : String)
    (h : KitVersion.tryFrom s = .ok x.kit.version) :
    tomlEncodeOk (encodeSchema x) = true ∧
    x.toToml = some (encodeSchema x) := by
  have hok : tomlEncodeOk (encodeSchema x) = true := by
    simp [encodeSchema, tomlEncodeOk, tomlEntriesOk, scalarsThenTables, Toml.isTable]
  exact ⟨hok, by rw [BundleInformationSchema.toToml, if_pos hok]⟩

theorem C10_to_string_total_witness :
    tomlEncodeOk (encodeSchema
      ⟨⟨"2.0.0"⟩, ⟨"Student Robotics", ⟨2022, 1, 4, 0, false, none⟩⟩,
       ⟨"robot-ABC", "beeeeees", true, "GB"⟩⟩) = true ∧
    BundleInformationSchema.toToml
      ⟨⟨"2.0.0"⟩, ⟨"Student Robotics", ⟨2022, 1, 4, 0, false, none⟩⟩,
       ⟨"robot-ABC", "beeeeees", true, "GB"⟩⟩ =
      some (encodeSchema
        ⟨⟨"2.0.0"⟩, ⟨"Student Robotics", ⟨2022, 1, 4, 0, false, none⟩⟩,
         ⟨"robot-ABC", "beeeeees", true, "GB"⟩⟩) :=
  C10_to_string_total _ "2022.1.4.0" rfl

end RobotBundler
